import Mathlib

/-!
Verification development for the Chamber-RTD-DAQ telemetry bridge.

The Python sources (`modbus.py`, `rtd.py`, `client.py`) are shallowly
embedded below.  Pure functions become Lean functions on `Nat` / `List Nat`
(bytes are naturals below 256, machine words are naturals reduced mod 2^16
explicitly); the stateful broadcaster / poller code becomes explicit state
passing; the shutdown behaviour becomes a step relation.  Python `float`
arithmetic on register values is modelled exactly over `ℚ`.
-/

/-! ## FrameCodec: the CRC16 checksum (`modbus.py`, `crc16`)

The source computes, for each input byte, `crc ^= pos` followed by eight
rounds of "shift right one bit, xor 0xA001 if the low bit was set", starting
from the seed `0xFFFF`, and finally packs the 16-bit accumulator into two
bytes little-endian (`struct.pack('<H', crc)`, i.e. low byte then high byte).
-/

/-- One inner round of the CRC loop: `if crc & 1: crc >>= 1; crc ^= 0xA001
else: crc >>= 1`. -/
def round1 (crc : ℕ) : ℕ :=
  if crc &&& 1 = 1 then (crc >>> 1) ^^^ 0xA001 else crc >>> 1

/-- The accumulator after the `for pos in data` loop: each byte is xor-ed
into the accumulator and then the inner round runs eight times. -/
def crcFold : ℕ → List ℕ → ℕ
  | crc, [] => crc
  | crc, pos :: rest => crcFold (round1^[8] (crc ^^^ pos)) rest

/-- Full `crc16`: fold from the seed `0xFFFF`, then pack little-endian
(low byte first; `x % 256` and `x / 256 % 256` are the two bytes of
`struct.pack` applied to a 16-bit value). -/
def crc16 (data : List ℕ) : List ℕ :=
  [crcFold 0xFFFF data % 256, crcFold 0xFFFF data / 256 % 256]

/-- The trailing-checksum test of `read_input_registers`:
`response[-2:] == crc16(response[:-2])` (the source raises when this is
false). -/
def crcCheck (response : List ℕ) : Bool :=
  response.drop (response.length - 2) == crc16 (response.take (response.length - 2))

-- Helper (not from the source): explicit inverse of `round1` on 16-bit
-- values, used to prove that the inner round is injective.
def round1Inv (x : ℕ) : ℕ :=
  if x.testBit 15 then 2 * (x ^^^ 0xA001) + 1 else 2 * x

theorem xor_lt_65536 {a b : ℕ} (ha : a < 65536) (hb : b < 65536) :
    a ^^^ b < 65536 := by
  have h : Nat.bitwise bne a b < 2 ^ 16 := Nat.bitwise_lt (by norm_num at ha ⊢; omega) (by norm_num at hb ⊢; omega)
  simpa using h

theorem round1_lt {c : ℕ} (h : c < 65536) : round1 c < 65536 := by
  unfold round1
  have h2 : c >>> 1 = c / 2 := by simp [Nat.shiftRight_succ, Nat.shiftRight_zero]
  split
  · exact xor_lt_65536 (by omega) (by norm_num)
  · omega

theorem round1Inv_round1 {c : ℕ} (h : c < 65536) : round1Inv (round1 c) = c := by
  have hand : c &&& 1 = c % 2 := Nat.and_one_is_mod c
  have hshift : c >>> 1 = c / 2 := by simp [Nat.shiftRight_succ, Nat.shiftRight_zero]
  have hhalf : c / 2 < 2 ^ 15 := by norm_num; omega
  have htb : (c / 2).testBit 15 = false := Nat.testBit_eq_false_of_lt hhalf
  rcases Nat.mod_two_eq_zero_or_one c with hpar | hpar
  · have : round1 c = c / 2 := by unfold round1; rw [hand, hpar]; simp [hshift]
    rw [this]
    unfold round1Inv
    rw [htb]
    simp
    omega
  · have hr : round1 c = (c / 2) ^^^ 0xA001 := by
      unfold round1; rw [hand, hpar]; simp [hshift]
    rw [hr]
    unfold round1Inv
    have htb2 : ((c / 2) ^^^ 0xA001).testBit 15 = true := by
      rw [Nat.testBit_xor, htb]
      decide
    rw [htb2]
    simp only [if_true]
    rw [Nat.xor_cancel_right]
    omega

theorem round1_inj {a b : ℕ} (ha : a < 65536) (hb : b < 65536)
    (h : round1 a = round1 b) : a = b := by
  have := congrArg round1Inv h
  rwa [round1Inv_round1 ha, round1Inv_round1 hb] at this

theorem iterate_round1_lt {c : ℕ} (n : ℕ) (h : c < 65536) : round1^[n] c < 65536 := by
  induction n generalizing c with
  | zero => simpa using h
  | succ n ih =>
    rw [Function.iterate_succ_apply]
    exact ih (round1_lt h)

theorem iterate_round1_inj {a b : ℕ} (n : ℕ) (ha : a < 65536) (hb : b < 65536)
    (h : round1^[n] a = round1^[n] b) : a = b := by
  induction n generalizing a b with
  | zero => simpa using h
  | succ n ih =>
    rw [Function.iterate_succ_apply, Function.iterate_succ_apply] at h
    exact round1_inj ha hb (ih (round1_lt ha) (round1_lt hb) h)

-- Sanity check of the embedding against the spec's known vector: crc16 of
-- the empty message is the seed 0xFFFF packed little-endian.
theorem crc16_nil : crc16 [] = [0xFF, 0xFF] := by decide

/-! ## DeviceClient (`modbus.py`, `ModbusClient.read_input_registers`)

The socket round-trip is modelled by passing the received response bytes as
an argument; everything after `response = recv_full_response(sock)` is
embedded directly.  The four `raise ValueError(...)` sites become the four
constructors of `ReadError` (`payloadSliceError` stands for the
`struct.error` Python would raise if a 2-byte register slice runs past the
end of the buffer). -/

inductive ReadError
  | shortFrame              -- "Response too short"
  | checksumMismatch        -- "CRC check failed"
  | unitOrFunctionMismatch  -- "Unexpected slave or function code"
  | byteCountMismatch       -- "Unexpected byte count ..."
  | payloadSliceError       -- struct.error on a short register slice
deriving DecidableEq

/-- The validation chain of `read_input_registers`, in source order:
length at least 5, trailing CRC, echoed slave / function code, byte count
equal to twice the requested register count. -/
def validateResponse (response : List ℕ) (slave function_code num_registers : ℕ) :
    Option ReadError :=
  if response.length < 5 then some .shortFrame
  else if ¬ crcCheck response then some .checksumMismatch
  else if response.getD 0 0 ≠ slave ∨ response.getD 1 0 ≠ function_code then
    some .unitOrFunctionMismatch
  else if response.getD 2 0 ≠ num_registers * 2 then some .byteCountMismatch
  else none

/-- The decode loop of `read_input_registers`: for `i in range(num_registers)`
take the two bytes `response[3+i*2 : 5+i*2]`, combine them big-endian
(`struct.unpack` of a 2-byte slice; any other slice length raises), scale by
`0.1` (exact `1/10` over `ℚ`), and append to the accumulator list. -/
def decodeRegisters (response : List ℕ) (num_registers : ℕ) : Option (List ℚ) :=
  (List.range num_registers).foldlM
    (fun registers i =>
      match (response.drop (3 + i * 2)).take 2 with
      | [b0, b1] => some (registers ++ [((b0 : ℚ) * 256 + (b1 : ℚ)) * (1/10)])
      | _ => none)
    []

structure ModbusClient where
  host : String
  port : ℕ
  slave : ℕ
  num_registers : ℕ
deriving DecidableEq

/-- Response processing of `ModbusClient.read_input_registers`.  Note that,
as in the source, the register count used for validation and decoding is the
method parameter `num_registers` (default `8`), not the `num_registers`
stored on the client at construction time; `start_addr` only enters the
request frame, never the response processing. -/
def ModbusClient.read_input_registers (c : ModbusClient) (response : List ℕ)
    (start_addr : ℕ := 0) (num_registers : ℕ := 8) : Except ReadError (List ℚ) :=
  match validateResponse response c.slave 4 num_registers with
  | some e => .error e
  | none =>
    match decodeRegisters response num_registers with
    | some registers => .ok registers
    | none => .error .payloadSliceError

/-! ## Response accumulation (`modbus.py`, `recv_full_response`)

`sock.recv` is modelled by a script of events: a `chunk` with bytes (an
empty chunk is how a closed connection shows up in Python), or a raised
`socket.timeout`.  The loop extends the buffer with each chunk and exits
when the buffer is complete per its declared byte-count field, on an empty
chunk, or on timeout; an exhausted script also returns the buffer (a real
socket would block instead, so scripts of interest end in one of the three
exits). -/

inductive RecvEvent
  | chunk (bytes : List ℕ)
  | timeout
deriving DecidableEq

def recv_full_response (events : List RecvEvent) (data : List ℕ)
    (min_bytes : ℕ := 5) : List ℕ :=
  match events with
  | [] => data
  | .timeout :: _ => data
  | .chunk bs :: rest =>
    if bs = [] then data
    else
      let d := data ++ bs
      if min_bytes ≤ d.length ∧ 3 + d.getD 2 0 + 2 ≤ d.length then d
      else recv_full_response rest d min_bytes

/-! ## Broadcaster (`rtd.py`: `CLIENTS`, `SERVER_RUNNING`,
`broadcast_tcp_message`, `stop_server`, and the `KeyboardInterrupt`
handler's close loop)

A subscriber is the `(conn, addr)` pair stored in `CLIENTS`; connections and
addresses are identified by numeric handles.  Whether `conn.sendall` raises
for a given subscriber is an environment parameter `sendFails`.

Python attribute lookup matters here: `stop_server` iterates with
`for conn, addr in CLIENTS` and calls `conn.close()`, while the
`KeyboardInterrupt` handler in `main` iterates with `for c in CLIENTS` and
calls `c.close()` on the pair itself.  `PyObj` / `tryClose` model this:
`close()` succeeds only on a connection object; on any other object it
raises `AttributeError`, which the surrounding bare `except: pass`
swallows. -/

structure Subscriber where
  conn : ℕ
  addr : ℕ
deriving DecidableEq

structure ServerState where
  clients : List Subscriber
  running : Bool
deriving DecidableEq

inductive PyObj
  | connection (id : ℕ)
  | address (id : ℕ)
  | pair (fst snd : PyObj)
deriving DecidableEq

/-- Calling `.close()` on a Python object: returns the id of the closed
connection, or `none` when the object has no `close` method (the
`AttributeError` case). -/
def tryClose : PyObj → Option ℕ
  | .connection id => some id
  | _ => none

/-- The `(conn, addr)` tuple as it sits in `CLIENTS`. -/
def subscriberObj (s : Subscriber) : PyObj :=
  .pair (.connection s.conn) (.address s.addr)

/-- The embedding of `stop_server`: set `SERVER_RUNNING = False`, close each
registered connection (the loop destructures `for conn, addr in CLIENTS`, so
`close` is called on the connection object itself), clear `CLIENTS`.
Returns the new state and the list of closed connection ids. -/
def stop_server (st : ServerState) : ServerState × List ℕ :=
  (⟨[], false⟩, st.clients.filterMap (fun s => tryClose (.connection s.conn)))

structure BroadcastResult where
  state : ServerState
  delivered : List Subscriber
  closed : List ℕ
deriving DecidableEq

/-- The body of `broadcast_tcp_message`'s `for conn, addr in CLIENTS` loop.
The `pending` argument is the part of `CLIENTS` the list iterator has not
visited yet.  On a send failure the handler removes the failing subscriber
from `CLIENTS` and then calls `stop_server()`, which empties `CLIENTS`; the
iterator's index is then past the end of the (now empty) list, so the loop
exits without visiting any later subscriber. -/
def broadcastGo (sendFails : Subscriber → Bool) (st : ServerState)
    (delivered : List Subscriber) : List Subscriber → BroadcastResult
  | [] => ⟨st, delivered, []⟩
  | c :: rest =>
    if sendFails c then
      let st1 : ServerState := ⟨st.clients.erase c, st.running⟩
      let res := stop_server st1
      ⟨res.1, delivered, res.2⟩
    else
      broadcastGo sendFails st (delivered ++ [c]) rest

/-- The embedding of `broadcast_tcp_message`: attempt a `sendall` to each
registered subscriber in order. -/
def broadcast_tcp_message (sendFails : Subscriber → Bool) (st : ServerState) :
    BroadcastResult :=
  broadcastGo sendFails st [] st.clients

/-- The close loop of `main`'s `KeyboardInterrupt` handler:
`SERVER_RUNNING = False`, then `for c in CLIENTS: try: c.close() except:
pass`.  Here `c` is the `(conn, addr)` pair, so `tryClose` is applied to the
pair object.  `CLIENTS` itself is never cleared by this handler. -/
def interrupt_close_clients (st : ServerState) : ServerState × List ℕ :=
  (⟨st.clients, false⟩, st.clients.filterMap (fun s => tryClose (subscriberObj s)))

/-! ## Poller batching (`rtd.py`, the DAQ loop in `main`)

One successful tick appends a row to the dataframe `df`, increments `count`,
and, once `count` has reached the threshold
`int(rc.SAMPLE_RATE * rc.DB_UPLOADINTERVAL)`, hands a copy of `df` to an
upload thread and immediately resets `df` to empty and `count` to `0`.  The
threshold is the parameter `threshold` below; `flushed` records the batches
handed to upload threads, in dispatch order. -/

structure Row where
  timestamp : ℕ
  readings : List ℚ
deriving DecidableEq

structure PollState where
  df : List Row
  count : ℕ
  flushed : List (List Row)
deriving DecidableEq

def initPollState : PollState := ⟨[], 0, []⟩

def daq_tick (threshold : ℕ) (st : PollState) (row : Row) : PollState :=
  let df := st.df ++ [row]
  let count := st.count + 1
  if threshold ≤ count then
    { df := [], count := 0, flushed := st.flushed ++ [df] }
  else
    { df := df, count := count, flushed := st.flushed }

def daq_run (threshold : ℕ) (rows : List Row) : PollState :=
  rows.foldl (daq_tick threshold) initPollState

/-! ## Tick cadence (`rtd.py`, `time.sleep(rc.SAMPLE_RATE / 60)`) -/

/-- Seconds slept between consecutive ticks, as the source computes it from
the configured rate. -/
def tick_sleep_seconds (sample_rate : ℚ) : ℚ := sample_rate / 60

/-- Modelled from the spec: the sampling interval the spec derives from a
"samples per minute" rate — `interval = 60 / rate` seconds (the value of
`rc.SAMPLE_RATE` lives in `rtd_config.py`, which is not part of the sources;
the spec fixes its unit as samples per minute). -/
def spec_tick_sleep_seconds (sample_rate : ℚ) : ℚ := 60 / sample_rate

/-! ## Shutdown sequencing (`rtd.py`, the `KeyboardInterrupt` handler)

The handler runs `if thread and thread.is_alive(): thread.join()` before it
breaks out of the DAQ loop, so the loop can only terminate once a dispatched
upload has finished.  This is modelled as a step relation on a control
state: `spawnFlush` is `thread.start()`, `flushCompletes` is the upload
thread finishing on its own, `interrupt` is the arrival of the
`KeyboardInterrupt`, and `finish` is the `break` — whose guard records that
the handler joins any live upload thread first. -/

inductive Phase
  | running
  | draining
  | stopped
deriving DecidableEq

inductive FlushStatus
  | idle
  | inFlight
  | completed
deriving DecidableEq

structure DaqCtl where
  phase : Phase
  flush : FlushStatus
deriving DecidableEq

inductive DaqStep : DaqCtl → DaqCtl → Prop
  | spawnFlush (s : FlushStatus) : DaqStep ⟨.running, s⟩ ⟨.running, .inFlight⟩
  | flushCompletes (p : Phase) : p ≠ .stopped → DaqStep ⟨p, .inFlight⟩ ⟨p, .completed⟩
  | interrupt (s : FlushStatus) : DaqStep ⟨.running, s⟩ ⟨.draining, s⟩
  | finish (s : FlushStatus) : s ≠ .inFlight → DaqStep ⟨.draining, s⟩ ⟨.stopped, s⟩

def DaqReaches (a b : DaqCtl) : Prop := Relation.ReflTransGen DaqStep a b

def daqInit : DaqCtl := ⟨.running, .idle⟩

/-! ## Claim theorems -/

/-- C1: the claim says a failed write evicts only the failing subscriber and
neither aborts the publish nor stops the service.  The source instead calls
`stop_server()` from the write-failure handler: with subscribers 1, 2, 3 and
a write failure at subscriber 2, only subscriber 1 ever receives the line,
the registry is emptied, every other connection is closed, and
`SERVER_RUNNING` is set to `False` (which also ends the DAQ loop). -/
theorem broadcast_write_failure_stops_service :
    broadcast_tcp_message (fun s => s.conn == 2)
      ⟨[⟨1, 100⟩, ⟨2, 200⟩, ⟨3, 300⟩], true⟩ =
      ⟨⟨[], false⟩, [⟨1, 100⟩], [1, 3]⟩ := by
  decide

/-- C2: the claim (and the spec) say the poller sleeps `60 / rate` seconds
per tick for a "samples per minute" rate.  The source sleeps
`rc.SAMPLE_RATE / 60` seconds: at 6 samples per minute the code sleeps a
tenth of a second where the spec requires ten seconds. -/
theorem sample_sleep_inverted :
    tick_sleep_seconds 6 = 1 / 10 ∧ spec_tick_sleep_seconds 6 = 10 ∧
      tick_sleep_seconds 6 ≠ spec_tick_sleep_seconds 6 := by
  refine ⟨?_, ?_, ?_⟩ <;> norm_num [tick_sleep_seconds, spec_tick_sleep_seconds]

set_option maxRecDepth 8000 in
/-- C4: the claim says a successful read returns one value per channel the
client was configured with at construction.  The source method ignores the
stored `self.num_registers` and uses its own parameter's default of `8`:
a client constructed for 3 channels, fed a well-formed 8-register response,
returns 8 values. -/
theorem read_default_count_ignores_configured :
    (⟨"brainbox", 9002, 1, 3⟩ : ModbusClient).num_registers = 3 ∧
      ((⟨"brainbox", 9002, 1, 3⟩ : ModbusClient).read_input_registers
          (([1, 4, 16] ++ List.replicate 16 0) ++
            crc16 ([1, 4, 16] ++ List.replicate 16 0))).toOption.map List.length =
        some 8 := by
  constructor
  · rfl
  · decide

/-- C5: the validation chain fails in source order — `shortFrame` below five
bytes, else `checksumMismatch` when the trailing two bytes are not the CRC of
the rest, else `unitOrFunctionMismatch` when byte 0 or byte 1 is off, else
`byteCountMismatch` when byte 2 is not twice the expected register count —
and a `byteCountMismatch` makes `read_input_registers` return no values. -/
theorem validateResponse_failure_order (r : List ℕ) (u f n : ℕ) :
    (r.length < 5 → validateResponse r u f n = some .shortFrame)
    ∧ (¬ r.length < 5 → crcCheck r = false →
        validateResponse r u f n = some .checksumMismatch)
    ∧ (¬ r.length < 5 → crcCheck r = true →
        (r.getD 0 0 ≠ u ∨ r.getD 1 0 ≠ f) →
        validateResponse r u f n = some .unitOrFunctionMismatch)
    ∧ (¬ r.length < 5 → crcCheck r = true → r.getD 0 0 = u → r.getD 1 0 = f →
        r.getD 2 0 ≠ n * 2 → validateResponse r u f n = some .byteCountMismatch)
    ∧ (∀ c : ModbusClient, validateResponse r c.slave 4 n = some .byteCountMismatch →
        c.read_input_registers r 0 n = .error .byteCountMismatch) := by
  refine ⟨?_, ?_, ?_, ?_, ?_⟩
  · intro h1
    simp [validateResponse, h1]
  · intro h1 h2
    simp [validateResponse, h1, h2]
  · intro h1 h2 h3
    unfold validateResponse
    rw [if_neg h1, if_neg (by simp [h2]), if_pos h3]
  · intro h1 h2 h3 h4 h5
    unfold validateResponse
    rw [if_neg h1, if_neg (by simp [h2]), if_neg (by push_neg; exact ⟨h3, h4⟩), if_pos h5]
  · intro c h
    simp [ModbusClient.read_input_registers, h]

set_option maxRecDepth 8000 in
theorem validateResponse_failure_order_witness :
    (validateResponse [] 1 4 8 = some .shortFrame)
    ∧ (validateResponse [1, 4, 2, 0, 100] 1 4 8 = some .checksumMismatch)
    ∧ (validateResponse ([2, 4, 2, 0, 100] ++ crc16 [2, 4, 2, 0, 100]) 1 4 1 =
        some .unitOrFunctionMismatch)
    ∧ (validateResponse ([1, 4, 3, 0, 100] ++ crc16 [1, 4, 3, 0, 100]) 1 4 8 =
        some .byteCountMismatch)
    ∧ ((⟨"brainbox", 9002, 1, 8⟩ : ModbusClient).read_input_registers
        ([1, 4, 3, 0, 100] ++ crc16 [1, 4, 3, 0, 100]) 0 8 =
        .error .byteCountMismatch) :=
  ⟨(validateResponse_failure_order [] 1 4 8).1 (by decide),
   (validateResponse_failure_order [1, 4, 2, 0, 100] 1 4 8).2.1 (by decide) (by decide),
   (validateResponse_failure_order ([2, 4, 2, 0, 100] ++ crc16 [2, 4, 2, 0, 100]) 1 4 1).2.2.1
     (by decide) (by decide) (by decide),
   (validateResponse_failure_order ([1, 4, 3, 0, 100] ++ crc16 [1, 4, 3, 0, 100]) 1 4 8).2.2.2.1
     (by decide) (by decide) (by decide) (by decide) (by decide),
   (validateResponse_failure_order ([1, 4, 3, 0, 100] ++ crc16 [1, 4, 3, 0, 100]) 1 4 8).2.2.2.2
     ⟨"brainbox", 9002, 1, 8⟩ (by decide)⟩

/-- C7: from the program's initial control state, any reachable state whose
phase is `stopped` has no flush still in flight — the `KeyboardInterrupt`
handler joins a live upload thread before breaking out of the loop, so a
dispatched batch is never lost at shutdown. -/
theorem shutdown_waits_for_flush (s : DaqCtl) (h : DaqReaches daqInit s)
    (hs : s.phase = .stopped) : s.flush ≠ .inFlight := by
  induction h with
  | refl => simp [daqInit] at hs
  | tail hab hbc ih =>
    cases hbc with
    | spawnFlush s => simp at hs
    | flushCompletes p hp => simp
    | interrupt s => simp at hs
    | finish s hne => simpa using hne

theorem shutdown_waits_for_flush_witness :
    DaqReaches daqInit ⟨.stopped, .completed⟩ ∧
      (⟨Phase.stopped, FlushStatus.completed⟩ : DaqCtl).flush ≠ .inFlight := by
  have trace : DaqReaches daqInit ⟨.stopped, .completed⟩ :=
    Relation.ReflTransGen.tail
      (Relation.ReflTransGen.tail
        (Relation.ReflTransGen.tail
          (Relation.ReflTransGen.single (DaqStep.spawnFlush .idle))
          (DaqStep.interrupt .inFlight))
        (DaqStep.flushCompletes .draining (by decide)))
      (DaqStep.finish .completed (by decide))
  exact ⟨trace, shutdown_waits_for_flush _ trace rfl⟩

/-- C8: the claim says cancellation closes every registered subscriber
connection and clears the registry.  The handler in `main` iterates the
`(conn, addr)` pairs themselves and calls `.close()` on each pair, which
raises `AttributeError` into a bare `except: pass` — so with one registered
subscriber nothing is closed and the registry is left intact (contrast
`stop_server`, which the cancellation path never calls, and which does close
and clear). -/
theorem interrupt_close_leaves_clients_open :
    interrupt_close_clients ⟨[⟨11, 501⟩], true⟩ = (⟨[⟨11, 501⟩], false⟩, ([] : List ℕ))
    ∧ stop_server ⟨[⟨11, 501⟩], true⟩ = (⟨[], false⟩, [11]) := by
  decide

/-- C10: a receive that yields zero bytes (peer closed the connection) is a
third loop exit: the accumulation loop stops at once and returns exactly the
bytes collected so far — possibly none — just as the timeout exit does,
while a buffer that satisfies its declared byte count exits as a complete
frame without consuming further events. -/
theorem recv_closed_connection_exit (rest : List RecvEvent) (data : List ℕ) :
    recv_full_response (.chunk [] :: rest) data = data
    ∧ recv_full_response (.timeout :: rest) data = data
    ∧ recv_full_response [.chunk []] [] = ([] : List ℕ)
    ∧ recv_full_response (.chunk [1, 4, 0, 9, 9] :: rest) [] = [1, 4, 0, 9, 9] := by
  refine ⟨?_, ?_, ?_, ?_⟩ <;> simp [recv_full_response]

/-! ### Poller batching invariants (C3) -/

/-- Every sample processed so far, in order: the flushed batches followed by
the live dataframe. -/
def pollProcessed (s : PollState) : List Row := s.flushed.flatten ++ s.df

theorem daq_tick_processed (T : ℕ) (s : PollState) (r : Row) :
    pollProcessed (daq_tick T s r) = pollProcessed s ++ [r] := by
  simp only [daq_tick, pollProcessed]
  split <;> simp

theorem daq_tick_invariant (T : ℕ) (s : PollState) (r : Row)
    (hc : s.count = s.df.length) (hlt : s.df.length < T)
    (hfl : ∀ b ∈ s.flushed, b.length = T) :
    (daq_tick T s r).count = (daq_tick T s r).df.length
    ∧ (daq_tick T s r).df.length < T
    ∧ (∀ b ∈ (daq_tick T s r).flushed, b.length = T) := by
  simp only [daq_tick]
  split
  case isTrue h =>
    refine ⟨rfl, by simpa using by omega, ?_⟩
    intro b hb
    simp only [List.mem_append, List.mem_singleton] at hb
    rcases hb with hb | hb
    · exact hfl b hb
    · subst hb
      simp only [List.length_append, List.length_singleton]
      omega
  case isFalse h =>
    exact ⟨by simp [hc], by simpa using by omega, hfl⟩

theorem daq_run_aux (T : ℕ) (rows : List Row) :
    ∀ s : PollState, s.count = s.df.length → s.df.length < T →
      (∀ b ∈ s.flushed, b.length = T) →
      ((rows.foldl (daq_tick T) s).count = (rows.foldl (daq_tick T) s).df.length
       ∧ (rows.foldl (daq_tick T) s).df.length < T
       ∧ (∀ b ∈ (rows.foldl (daq_tick T) s).flushed, b.length = T)
       ∧ pollProcessed (rows.foldl (daq_tick T) s) = pollProcessed s ++ rows) := by
  induction rows with
  | nil =>
    intro s h1 h2 h3
    exact ⟨h1, h2, h3, by simp⟩
  | cons r rest ih =>
    intro s h1 h2 h3
    rw [List.foldl_cons]
    obtain ⟨t1, t2, t3⟩ := daq_tick_invariant T s r h1 h2 h3
    obtain ⟨g1, g2, g3, g4⟩ := ih (daq_tick T s r) t1 t2 t3
    refine ⟨g1, g2, g3, ?_⟩
    rw [g4, daq_tick_processed]
    simp

theorem join_length_const {α : Type} (T : ℕ) :
    ∀ l : List (List α), (∀ b ∈ l, b.length = T) → l.flatten.length = l.length * T := by
  intro l
  induction l with
  | nil => simp
  | cons b rest ih =>
    intro h
    have hb : b.length = T := h b (by simp)
    have hr := ih (fun x hx => h x (by simp [hx]))
    simp only [List.flatten_cons, List.length_append, List.length_cons, hb, hr]
    ring

/-- C3: for a threshold of at least one, each dispatched batch has exactly
the threshold's number of samples, the dispatched batches followed by the
live batch are exactly the processed samples in order (nothing duplicated or
dropped at a flush boundary), the live batch's count matches its length and
stays strictly below the threshold (it restarts at zero after each flush),
and the batch sizes account for every sample. -/
theorem poller_flush_boundary (T : ℕ) (hT : 1 ≤ T) (rows : List Row) :
    (∀ b ∈ (daq_run T rows).flushed, b.length = T)
    ∧ (daq_run T rows).flushed.flatten ++ (daq_run T rows).df = rows
    ∧ (daq_run T rows).count = (daq_run T rows).df.length
    ∧ (daq_run T rows).df.length < T
    ∧ (daq_run T rows).flushed.length * T + (daq_run T rows).df.length = rows.length := by
  obtain ⟨h1, h2, h3, h4⟩ :=
    daq_run_aux T rows initPollState rfl (by simpa [initPollState] using hT)
      (by simp [initPollState])
  have hproc : pollProcessed (daq_run T rows) = rows := by
    simpa [pollProcessed, initPollState, daq_run] using h4
  have hjoin : (daq_run T rows).flushed.flatten ++ (daq_run T rows).df = rows := by
    simpa [pollProcessed] using hproc
  refine ⟨h3, hjoin, h1, h2, ?_⟩
  have hlen := congrArg List.length hjoin
  simp only [List.length_append] at hlen
  rw [join_length_const T ((daq_run T rows).flushed) h3] at hlen
  exact hlen

def demoRows : List Row := [⟨0, []⟩, ⟨1, []⟩, ⟨2, []⟩, ⟨3, []⟩, ⟨4, []⟩]

theorem poller_flush_boundary_witness :
    (1 : ℕ) ≤ 2
    ∧ ((∀ b ∈ (daq_run 2 demoRows).flushed, b.length = 2)
       ∧ (daq_run 2 demoRows).flushed.flatten ++ (daq_run 2 demoRows).df = demoRows
       ∧ (daq_run 2 demoRows).count = (daq_run 2 demoRows).df.length
       ∧ (daq_run 2 demoRows).df.length < 2
       ∧ (daq_run 2 demoRows).flushed.length * 2 + (daq_run 2 demoRows).df.length =
           demoRows.length) :=
  ⟨by decide, poller_flush_boundary 2 (by decide) demoRows⟩

/-! ### Register decoding (C9) -/

theorem take_two_of_drop (b : List ℕ) (k : ℕ) (h : k + 2 ≤ b.length) :
    (b.drop k).take 2 = [b.getD k 0, b.getD (k + 1) 0] := by
  have h1 : k < b.length := by omega
  have h2 : k + 1 < b.length := by omega
  have ht : ∀ (x y : ℕ) (t : List ℕ), List.take 2 (x :: y :: t) = [x, y] := fun x y t => rfl
  rw [List.drop_eq_getElem_cons h1, List.drop_eq_getElem_cons h2, ht]
  rw [List.getD_eq_getElem _ _ h1, List.getD_eq_getElem _ _ h2]

theorem decodeRegisters_ok (b : List ℕ) : ∀ n : ℕ, 3 + 2 * n ≤ b.length →
    ∃ l, decodeRegisters b n = some l ∧ l.length = n ∧
      ∀ i, i < n →
        l.getD i 0 = ((b.getD (3 + 2 * i) 0 : ℚ) * 256 + (b.getD (4 + 2 * i) 0 : ℚ)) * (1/10) := by
  intro n
  induction n with
  | zero =>
    intro h
    exact ⟨[], rfl, rfl, fun i hi => absurd hi (by omega)⟩
  | succ n ih =>
    intro h
    obtain ⟨l, hl, hlen, hval⟩ := ih (by omega)
    have e1 : 3 + n * 2 = 3 + 2 * n := by ring
    have e2 : 3 + 2 * n + 1 = 4 + 2 * n := by ring
    have hslice : (b.drop (3 + n * 2)).take 2 = [b.getD (3 + 2 * n) 0, b.getD (4 + 2 * n) 0] := by
      rw [e1, take_two_of_drop b (3 + 2 * n) (by omega), e2]
    refine ⟨l ++ [((b.getD (3 + 2 * n) 0 : ℚ) * 256 + (b.getD (4 + 2 * n) 0 : ℚ)) * (1/10)],
      ?_, ?_, ?_⟩
    · unfold decodeRegisters at hl ⊢
      rw [List.range_succ, List.foldlM_append, hl]
      simp [List.foldlM, hslice]
    · simp [hlen]
    · intro i hi
      rcases Nat.lt_or_ge i n with hlt | hge
      · rw [List.getD_append _ _ _ _ (by omega)]
        exact hval i hlt
      · have hin : i = n := by omega
        subst hin
        rw [List.getD_append_right _ _ _ _ (by omega)]
        simp [hlen]

/-- C9: decoding yields exactly `count` values in order, the i-th being the
big-endian 16-bit unsigned integer read at byte offset `3 + 2i` scaled by
one tenth (Python's `* 0.1` modelled exactly over `ℚ`); in particular a
response whose payload bytes at offsets 3 and 4 are `0x00, 0x64` decodes,
for count 1, to the single value `10`. -/
theorem decodeRegisters_spec :
    (∀ (b : List ℕ) (n : ℕ), 3 + 2 * n ≤ b.length →
      ∃ l, decodeRegisters b n = some l ∧ l.length = n ∧
        ∀ i, i < n →
          l.getD i 0 =
            ((b.getD (3 + 2 * i) 0 : ℚ) * 256 + (b.getD (4 + 2 * i) 0 : ℚ)) * (1/10))
    ∧ decodeRegisters [1, 4, 2, 0x00, 0x64, 255, 255] 1 = some [10] := by
  refine ⟨decodeRegisters_ok, ?_⟩
  have hr : List.range 1 = [0] := by decide
  simp only [decodeRegisters, hr, List.foldlM]
  norm_num

theorem decodeRegisters_spec_witness :
    3 + 2 * 1 ≤ ([1, 4, 2, 0x00, 0x64, 255, 255] : List ℕ).length
    ∧ ∃ l, decodeRegisters [1, 4, 2, 0x00, 0x64, 255, 255] 1 = some l ∧ l.length = 1 ∧
        ∀ i, i < 1 →
          l.getD i 0 =
            ((([1, 4, 2, 0x00, 0x64, 255, 255] : List ℕ).getD (3 + 2 * i) 0 : ℚ) * 256 +
              (([1, 4, 2, 0x00, 0x64, 255, 255] : List ℕ).getD (4 + 2 * i) 0 : ℚ)) * (1/10) :=
  ⟨by decide, decodeRegisters_spec.1 [1, 4, 2, 0x00, 0x64, 255, 255] 1 (by decide)⟩

/-! ### CRC16 round-trip and single-bit error detection (C6) -/

theorem xor_lt_256 {a b : ℕ} (ha : a < 256) (hb : b < 256) : a ^^^ b < 256 := by
  have h : Nat.bitwise bne a b < 2 ^ 8 := Nat.bitwise_lt (by omega) (by omega)
  simpa using h

theorem one_shiftLeft_lt_256 {k : ℕ} (hk : k < 8) : 1 <<< k < 256 := by
  rw [Nat.shiftLeft_eq, one_mul]
  calc 2 ^ k ≤ 2 ^ 7 := Nat.pow_le_pow_right (by omega) (by omega)
    _ < 256 := by norm_num

theorem crcFold_lt (data : List ℕ) : ∀ crc : ℕ, crc < 65536 →
    (∀ x ∈ data, x < 65536) → crcFold crc data < 65536 := by
  induction data with
  | nil => intro crc h _; simpa [crcFold] using h
  | cons p rest ih =>
    intro crc h hb
    rw [crcFold]
    exact ih _ (iterate_round1_lt 8 (xor_lt_65536 h (hb p (by simp))))
      (fun x hx => hb x (by simp [hx]))

theorem crcFold_inj (data : List ℕ) : ∀ a b : ℕ, a < 65536 → b < 65536 →
    (∀ x ∈ data, x < 65536) → crcFold a data = crcFold b data → a = b := by
  induction data with
  | nil => intro a b _ _ _ h; simpa [crcFold] using h
  | cons p rest ih =>
    intro a b ha hb hd h
    rw [crcFold, crcFold] at h
    have hp : p < 65536 := hd p (by simp)
    have h8 := ih _ _ (iterate_round1_lt 8 (xor_lt_65536 ha hp))
      (iterate_round1_lt 8 (xor_lt_65536 hb hp)) (fun x hx => hd x (by simp [hx])) h
    have hx := iterate_round1_inj 8 (xor_lt_65536 ha hp) (xor_lt_65536 hb hp) h8
    exact Nat.xor_left_inj.mp hx

theorem crcFold_flip (b : List ℕ) : ∀ (i k crc : ℕ), (∀ x ∈ b, x < 256) →
    crc < 65536 → i < b.length → k < 8 →
    crcFold crc (b.set i (b.getD i 0 ^^^ (1 <<< k))) ≠ crcFold crc b := by
  induction b with
  | nil => intro i k crc _ _ hi _; simp at hi
  | cons p rest ih =>
    intro i k crc hb hcrc hi hk
    have hp : p < 256 := hb p (by simp)
    have hrest : ∀ x ∈ rest, x < 256 := fun x hx => hb x (by simp [hx])
    have hrest16 : ∀ x ∈ rest, x < 65536 := fun x hx => by
      have := hrest x hx; omega
    cases i with
    | zero =>
      simp only [List.set_cons_zero, List.getD_cons_zero]
      rw [crcFold, crcFold]
      intro h
      have hv : p ^^^ (1 <<< k) < 256 := xor_lt_256 hp (one_shiftLeft_lt_256 hk)
      have hxa : crc ^^^ (p ^^^ (1 <<< k)) < 65536 := xor_lt_65536 hcrc (by omega)
      have hxb : crc ^^^ p < 65536 := xor_lt_65536 hcrc (by omega)
      have h8 := crcFold_inj rest _ _ (iterate_round1_lt 8 hxa) (iterate_round1_lt 8 hxb)
        hrest16 h
      have hxe := iterate_round1_inj 8 hxa hxb h8
      have hpe : p ^^^ (1 <<< k) = p := Nat.xor_right_inj.mp hxe
      have : (1 <<< k) = 0 := by
        have := congrArg (fun z => p ^^^ z) (Nat.xor_cancel_left p (1 <<< k) ▸ hpe)
        calc 1 <<< k = p ^^^ (p ^^^ (1 <<< k)) := (Nat.xor_cancel_left p (1 <<< k)).symm
          _ = p ^^^ p := by rw [hpe]
          _ = 0 := Nat.xor_self p
      have hpow : (0 : ℕ) < 1 <<< k := by
        rw [Nat.shiftLeft_eq, one_mul]
        exact Nat.pos_pow_of_pos k (by omega)
      omega
    | succ j =>
      simp only [List.set_cons_succ, List.getD_cons_succ]
      rw [crcFold, crcFold]
      exact ih j k _ hrest (iterate_round1_lt 8 (xor_lt_65536 hcrc (by omega)))
        (by simpa using hi) hk

theorem crc16_ne_of_fold_ne {d1 d2 : List ℕ} (h1 : crcFold 0xFFFF d1 < 65536)
    (h2 : crcFold 0xFFFF d2 < 65536)
    (hne : crcFold 0xFFFF d1 ≠ crcFold 0xFFFF d2) : crc16 d1 ≠ crc16 d2 := by
  unfold crc16
  intro h
  simp only [List.cons.injEq, and_true] at h
  obtain ⟨ha, hb⟩ := h
  apply hne
  omega

theorem crc16_length (d : List ℕ) : (crc16 d).length = 2 := rfl

theorem crcCheck_append_crc (b : List ℕ) : crcCheck (b ++ crc16 b) = true := by
  unfold crcCheck
  have hlen : (b ++ crc16 b).length = b.length + 2 := by simp [crc16_length]
  rw [hlen]
  have he : b.length + 2 - 2 = b.length := by omega
  rw [he, List.drop_left, List.take_left]
  simp

/-- C6: appending `crc16 b` to any byte sequence `b` makes the trailing
checksum check succeed; and for bytes below 256, flipping any single bit of
`b` (byte position `i`, bit position `k < 8`) makes the check fail — the CRC
detects every single-bit error. -/
theorem crc_roundtrip_and_single_bit_flip (b : List ℕ) (hb : ∀ x ∈ b, x < 256) :
    crcCheck (b ++ crc16 b) = true
    ∧ ∀ i k, i < b.length → k < 8 →
        crcCheck (b.set i (b.getD i 0 ^^^ (1 <<< k)) ++ crc16 b) = false := by
  refine ⟨crcCheck_append_crc b, ?_⟩
  intro i k hi hk
  have hb16 : ∀ x ∈ b, x < 65536 := fun x hx => by have := hb x hx; omega
  have hb2sub : ∀ x ∈ b.set i (b.getD i 0 ^^^ (1 <<< k)), x < 65536 := by
    intro x hx
    rcases List.mem_or_eq_of_mem_set hx with hx | hx
    · exact hb16 x hx
    · subst hx
      have hgd : b.getD i 0 < 256 := by
        rw [List.getD_eq_getElem _ _ hi]
        exact hb _ (List.getElem_mem hi)
      have := xor_lt_256 hgd (one_shiftLeft_lt_256 hk)
      omega
  have hfold : crcFold 0xFFFF (b.set i (b.getD i 0 ^^^ (1 <<< k))) ≠ crcFold 0xFFFF b :=
    crcFold_flip b i k 0xFFFF hb (by norm_num) hi hk
  have hne : crc16 (b.set i (b.getD i 0 ^^^ (1 <<< k))) ≠ crc16 b :=
    crc16_ne_of_fold_ne (crcFold_lt _ 0xFFFF (by norm_num) hb2sub)
      (crcFold_lt _ 0xFFFF (by norm_num) hb16) hfold
  unfold crcCheck
  have hlen2 : (b.set i (b.getD i 0 ^^^ (1 <<< k))).length = b.length := by simp
  have hlen : (b.set i (b.getD i 0 ^^^ (1 <<< k)) ++ crc16 b).length = b.length + 2 := by
    simp [crc16_length, hlen2]
  rw [hlen]
  have he : b.length + 2 - 2 = b.length := by omega
  rw [he, ← hlen2, List.drop_left, List.take_left]
  rw [beq_eq_false_iff_ne]
  exact fun h => hne h.symm

theorem crc_roundtrip_and_single_bit_flip_witness :
    (∀ x ∈ ([1, 2, 3] : List ℕ), x < 256)
    ∧ crcCheck (([1, 2, 3] : List ℕ) ++ crc16 [1, 2, 3]) = true
    ∧ crcCheck (([1, 2, 3] : List ℕ).set 1 (([1, 2, 3] : List ℕ).getD 1 0 ^^^ (1 <<< 0)) ++
        crc16 [1, 2, 3]) = false := by
  have h : ∀ x ∈ ([1, 2, 3] : List ℕ), x < 256 := by decide
  exact ⟨h, (crc_roundtrip_and_single_bit_flip [1, 2, 3] h).1,
    (crc_roundtrip_and_single_bit_flip [1, 2, 3] h).2 1 0 (by decide) (by decide)⟩
